import Mathlib

/-!
Verification development for the CXq_data market-data pipeline.

Dates are embedded as rata-die day numbers (`Nat`): day 1 is 0001-01-01,
a Monday, in the proleptic Gregorian calendar.  Prices (64-bit floats in
the source) are embedded as `Rat`: the properties verified here only use
order comparisons and exact equalities on prices, never rounding.
Volumes (Int64 in the source) are embedded as `Int`.  Fallible source
code is embedded with `Except String`.
-/

namespace CXq

/-- Weekday of a rata-die day number: 0 = Monday .. 6 = Sunday,
matching the convention of the host datetime library. -/
def weekday (d : Nat) : Nat := (d + 6) % 7

/-- From utils/dates.py `last_trading_day`: walk backwards from `ref`
until a weekday is hit.  The loop runs at most twice (once from Saturday,
twice from Sunday) and is unrolled here. -/
def last_trading_day (ref : Nat) : Nat :=
  if weekday ref == 5 then ref - 1
  else if weekday ref == 6 then ref - 2
  else ref

/-- From utils/dates.py `trading_days_between`: weekdays between `start`
and `stop`, inclusive.  The source loops `current` from `start` while
`current <= end`, keeping weekdays; here this is a filtered range. -/
def trading_days_between (start stop : Nat) : List Nat :=
  (List.range' start (stop + 1 - start)).filter (fun d => decide (weekday d < 5))

/-- Stable ascending sort by a `Nat` key (embedding of the dataframe
library ascending sort; stability matches its behaviour on ties). -/
def sortK {α : Type} (f : α → Nat) (l : List α) : List α :=
  List.insertionSort (fun a b => f a ≤ f b) l

/-- Boolean test that a list is ascending under a `Nat` key. -/
def ascK {α : Type} (f : α → Nat) : List α → Bool
  | [] => true
  | [_] => true
  | a :: b :: t => decide (f a ≤ f b) && ascK f (b :: t)

/-- From validation/models.py `CheckStatus`. -/
inductive CheckStatus where
  | PASS
  | WARN
  | FAIL
deriving DecidableEq, Repr

/-- Structured payloads that the checks place in the `details` dict of a
CheckResult: the `missing_dates` list of trading_day_gaps, the
`issue_count` of price_sanity, and the latest-date / days-behind pair of
stale_data. -/
inductive CheckDetails where
  | missingDates (dates : List Nat)
  | issueCount (n : Nat)
  | staleInfo (latestDate : Nat) (daysBehind : Int)
deriving DecidableEq, Repr

/-- From validation/models.py `CheckResult`. -/
structure CheckResult where
  check_name : String
  status : CheckStatus
  message : String
  details : Option CheckDetails := none
deriving DecidableEq, Repr

/-- From validation/models.py `CheckReport` (timestamp embedded as a
number supplied by the caller of the runner). -/
structure CheckReport where
  symbol : String
  timestamp : Nat
  results : List CheckResult
deriving DecidableEq, Repr

/-- From validation/models.py `CheckReport.overall_status`: FAIL if any
result is FAIL, else WARN if any is WARN, else PASS (the source tests
membership in the set of statuses, which is the same as `any`). -/
def CheckReport.overall_status (rep : CheckReport) : CheckStatus :=
  if rep.results.any (fun r => decide (r.status = CheckStatus.FAIL)) then CheckStatus.FAIL
  else if rep.results.any (fun r => decide (r.status = CheckStatus.WARN)) then CheckStatus.WARN
  else CheckStatus.PASS

/-- One canonical row as produced by the normalizers: the canonical
schema columns plus the `symbol` partitioning column that the
normalizers attach.  The `open` column is `open_` because `open` is a
reserved word. -/
structure Row where
  date : Nat
  open_ : Rat
  high : Rat
  low : Rat
  close : Rat
  adjusted_close : Rat
  volume : Int
  source : String
  ingested_at : Nat
  symbol : String
deriving DecidableEq, Repr

/-- Python `"; ".join`, used by the checks to assemble messages. -/
def joinSemicolon : List String → String
  | [] => ""
  | [x] => x
  | x :: xs => x ++ "; " ++ joinSemicolon xs

/-- The message `m` contains `sub` as a contiguous substring. -/
def strMentions (m sub : String) : Prop := sub.data <:+: m.data

/-- From validation/checks.py `check_trading_day_gaps`.  Empty input is
answered first; then the date series is sorted, its min and max taken
(embedded as `Option`-returning operations: the `.error` branch records
that the host series min and max of an empty series would be `None`),
the weekday calendar between them built, the missing dates computed, and
the longest run of missing dates merged at gaps of at most three
calendar days measured by the rolling loop `gapLoop`. -/
def gapLoop : Nat → Nat → Nat → List Nat → Nat
  | maxGap, _, _, [] => maxGap
  | maxGap, currentGap, prev, d :: rest =>
    if d - prev ≤ 3 then
      gapLoop (max maxGap (currentGap + 1)) (currentGap + 1) d rest
    else
      gapLoop maxGap 1 d rest

/-- The loop of check_trading_day_gaps over the missing dates:
`max_gap = 1; current_gap = 1;` then for each consecutive pair with
difference at most 3, extend the current run and update the maximum,
otherwise reset the current run. -/
def maxGapRun : List Nat → Nat
  | [] => 1
  | d :: rest => gapLoop 1 1 d rest

/-- Specification-side view of the gap merging: split an ascending list
of missing dates into maximal runs in which consecutive dates are at
most 3 calendar days apart. -/
def gapRuns : List Nat → List (List Nat)
  | [] => []
  | [d] => [[d]]
  | d :: d2 :: rest =>
    match gapRuns (d2 :: rest) with
    | [] => [[d]]
    | run :: runs => if d2 - d ≤ 3 then (d :: run) :: runs else [d] :: run :: runs

/-- Length of the longest of a list of runs (0 when there are none). -/
def listMaxLen (rs : List (List Nat)) : Nat :=
  rs.foldr (fun run m => max run.length m) 0

/-- The sorted date series of a row set
(`df.select("date").to_series().sort()`). -/
def datesOf (df : List Row) : List Nat := sortK id (df.map (·.date))

/-- The missing trading days of a row set: the weekday calendar between
the minimum and maximum date present, minus the dates present, in
ascending order (`sorted(expected - actual)`; the expected calendar is
ascending and duplicate-free, so the set difference is its filter). -/
def missingOf (df : List Row) : List Nat :=
  match (datesOf df).min?, (datesOf df).max? with
  | some start, some stop =>
    (trading_days_between start stop).filter (fun d => decide (d ∉ (datesOf df).dedup))
  | _, _ => []

/-- From validation/checks.py `check_trading_day_gaps`. -/
def check_trading_day_gaps (df : List Row) (symbol : String) : Except String CheckResult :=
  if df.isEmpty then
    Except.ok { check_name := "trading_day_gaps", status := CheckStatus.FAIL,
                message := "No data for " ++ symbol }
  else
    let dates := datesOf df
    match dates.min?, dates.max? with
    | some start, some stop =>
      let expected := trading_days_between start stop
      let actual := dates.dedup
      let missing := expected.filter (fun d => decide (d ∉ actual))
      if missing.isEmpty then
        Except.ok { check_name := "trading_day_gaps", status := CheckStatus.PASS,
                    message := "No gaps found (" ++ toString actual.length ++ " trading days)" }
      else
        let maxGap := maxGapRun missing
        let status := if maxGap > 3 then CheckStatus.FAIL else CheckStatus.WARN
        Except.ok { check_name := "trading_day_gaps", status := status,
                    message := toString missing.length ++ " missing trading day(s), longest gap: "
                      ++ toString maxGap,
                    details := some (CheckDetails.missingDates (missing.take 20)) }
    | _, _ => Except.error "min or max of an empty series"

/-- The `negative` filter of check_price_sanity: rows with a negative
open, high, low or close. -/
def negRows (df : List Row) : List Row :=
  df.filter fun r =>
    decide (r.open_ < 0) || decide (r.high < 0) || decide (r.low < 0) || decide (r.close < 0)

/-- The `high_low` filter of check_price_sanity: rows where high < low. -/
def highLowRows (df : List Row) : List Row :=
  df.filter fun r => decide (r.high < r.low)

/-- The `zero_close` filter of check_price_sanity: rows with close = 0. -/
def zeroCloseRows (df : List Row) : List Row :=
  df.filter fun r => decide (r.close = 0)

/-- The `neg_volume` filter of check_price_sanity: rows with negative
volume. -/
def negVolumeRows (df : List Row) : List Row :=
  df.filter fun r => decide (r.volume < 0)

/-- From validation/checks.py `check_price_sanity`. -/
def check_price_sanity (df : List Row) (_symbol : String) : CheckResult :=
  let negative := negRows df
  let issues : List String := []
  let issues := if negative.length > 0 then
    issues ++ [toString negative.length ++ " rows with negative prices"] else issues
  let high_low := highLowRows df
  let issues := if high_low.length > 0 then
    issues ++ [toString high_low.length ++ " rows where high < low"] else issues
  let zero_close := zeroCloseRows df
  let issues := if zero_close.length > 0 then
    issues ++ [toString zero_close.length ++ " rows with zero close"] else issues
  let neg_volume := negVolumeRows df
  let issues := if neg_volume.length > 0 then
    issues ++ [toString neg_volume.length ++ " rows with negative volume"] else issues
  if issues.isEmpty then
    { check_name := "price_sanity", status := CheckStatus.PASS,
      message := "All price sanity checks passed" }
  else
    { check_name := "price_sanity", status := CheckStatus.FAIL,
      message := joinSemicolon issues,
      details := some (CheckDetails.issueCount issues.length) }

/-- Specification-side list of the descriptions of the triggered issue
kinds of check_price_sanity, in check order. -/
def priceIssues (df : List Row) : List String :=
  (if (negRows df).length > 0 then
    [toString (negRows df).length ++ " rows with negative prices"] else []) ++
  (if (highLowRows df).length > 0 then
    [toString (highLowRows df).length ++ " rows where high < low"] else []) ++
  (if (zeroCloseRows df).length > 0 then
    [toString (zeroCloseRows df).length ++ " rows with zero close"] else []) ++
  (if (negVolumeRows df).length > 0 then
    [toString (negVolumeRows df).length ++ " rows with negative volume"] else [])

/-- From validation/checks.py `check_stale_data`.  The call of the host
clock (`datetime.date.today()` inside `last_trading_day()`) is made
explicit as the `today` argument; the `.error` branch records that the
host series max of an empty series would be `None`. -/
def check_stale_data (today : Nat) (df : List Row) (symbol : String) :
    Except String CheckResult :=
  if df.isEmpty then
    Except.ok { check_name := "stale_data", status := CheckStatus.FAIL,
                message := "No data for " ++ symbol }
  else
    match (df.map (·.date)).max? with
    | some max_date =>
      let last_td := last_trading_day today
      let days_behind : Int := ((trading_days_between max_date last_td).length : Int) - 1
      let status := if days_behind ≤ 1 then CheckStatus.PASS
        else if days_behind ≤ 5 then CheckStatus.WARN
        else CheckStatus.FAIL
      let msg := if days_behind ≤ 1 then "Data is current (latest: " ++ toString max_date ++ ")"
        else "Data is " ++ toString days_behind ++ " trading day(s) behind (latest: "
          ++ toString max_date ++ ")"
      Except.ok { check_name := "stale_data", status := status, message := msg,
                  details := some (CheckDetails.staleInfo max_date days_behind) }
    | none => Except.error "max of an empty series"

/-- The `flat` filter of check_ohlc_consistency: rows whose four OHLC
values are identical. -/
def flatRows (df : List Row) : List Row :=
  df.filter fun r =>
    decide (r.open_ = r.high) && decide (r.high = r.low) && decide (r.low = r.close)

/-- The `zero_vol_movement` filter of check_ohlc_consistency: rows with
zero volume but more than 1% relative movement between open and close. -/
def zeroVolMoveRows (df : List Row) : List Row :=
  df.filter fun r =>
    decide (r.volume = 0) && decide (|r.close - r.open_| / r.open_ > (1 : Rat) / 100)

/-- From validation/checks.py `check_ohlc_consistency`.  The source
divides by `open` in 64-bit floats, where division by zero yields an
infinity or NaN without raising; the embedding divides in `Rat`, where
division by zero yields zero, equally without raising (the verified
claims do not depend on which rows this heuristic flags). -/
def check_ohlc_consistency (df : List Row) (_symbol : String) : CheckResult :=
  let flat := flatRows df
  let issues : List String := []
  let issues := if flat.length > 0 then
    issues ++ [toString flat.length ++ " rows with identical OHLC (possible placeholder)"]
    else issues
  let zero_vol_movement := zeroVolMoveRows df
  let issues := if zero_vol_movement.length > 0 then
    issues ++ [toString zero_vol_movement.length ++ " rows with zero volume but >1% price movement"]
    else issues
  if issues.isEmpty then
    { check_name := "ohlc_consistency", status := CheckStatus.PASS,
      message := "OHLC consistency checks passed" }
  else
    { check_name := "ohlc_consistency", status := CheckStatus.WARN,
      message := joinSemicolon issues }

/-- From validation/runner.py `run_all_checks`: the fixed ordered check
list, wrapped with a caller-supplied timestamp (`now`) standing for the
current UTC time; `today` is the clock read of check_stale_data. -/
def run_all_checks (today now : Nat) (df : List Row) (symbol : String) :
    Except String CheckReport := do
  let r1 ← check_trading_day_gaps df symbol
  let r2 := check_price_sanity df symbol
  let r3 ← check_stale_data today df symbol
  let r4 := check_ohlc_consistency df symbol
  Except.ok { symbol := symbol, timestamp := now, results := [r1, r2, r3, r4] }

/-- From processing/schemas.py `DAILY_OHLCV_COLUMNS`: the canonical
column names, in schema order. -/
def DAILY_OHLCV_COLUMNS : List String :=
  ["date", "open", "high", "low", "close", "adjusted_close", "volume", "source", "ingested_at"]

/-- Column list of every normalizer output: each normalizer ends with
`df.select(DAILY_OHLCV_COLUMNS + ["symbol"])`. -/
def NORMALIZE_OUTPUT_COLUMNS : List String := DAILY_OHLCV_COLUMNS ++ ["symbol"]

/-- One row of a yfinance daily CSV after the header renames: the values
in the Date/Open/High/Low/Close/Volume columns, plus the value the
Adj-Close-style column would hold (used only when the CSV has one).
The date is already parsed; the source chooses a date-only or
datetime parse path from a sample string, both yielding the date. -/
structure YfRaw where
  date : Nat
  open_ : Rat
  high : Rat
  low : Rat
  close : Rat
  adjClose : Rat
  volume : Int
deriving DecidableEq, Repr

/-- A parsed yfinance CSV: whether an Adj-Close-style column
("Adj Close", "Adj. Close" or "Adjusted Close") is present, and the
data rows in file order. -/
structure YfPayload where
  hasAdjCol : Bool
  rows : List YfRaw
deriving DecidableEq, Repr

/-- One entry of the Alpha Vantage "Time Series (Daily)" JSON object:
the parsed numeric fields, with the "5. adjusted close" field optional
(the source falls back to the close per entry via `.get`). -/
structure AvRaw where
  date : Nat
  open_ : Rat
  high : Rat
  low : Rat
  close : Rat
  volume : Int
  adjClose : Option Rat
deriving DecidableEq, Repr

/-- A parsed Alpha Vantage daily JSON: the entries of
"Time Series (Daily)" in JSON order ([] both when the key is missing
and when it maps to an empty object, the two cases the source rejects). -/
structure AvPayload where
  rows : List AvRaw
deriving DecidableEq, Repr

/-- One row of a Stooq daily CSV after the header renames
(Date, Open, High, Low, Close, Volume; no adjusted close). -/
structure StooqRaw where
  date : Nat
  open_ : Rat
  high : Rat
  low : Rat
  close : Rat
  volume : Int
deriving DecidableEq, Repr

/-- From processing/normalizer.py `normalize_yfinance_daily`.  On an
empty frame the source indexes `df["date"][0]` for the date-format
sample, which raises; that is the `.error` branch.  The adjusted close
is the Adj-Close column when present, else the close.  No sort is
performed by this normalizer. -/
def normalize_yfinance_daily (p : YfPayload) (symbol : String) (now : Nat) :
    Except String (List Row) :=
  match p.rows with
  | [] => Except.error "date sample index out of range on an empty frame"
  | _ :: _ => Except.ok (p.rows.map fun x =>
      { date := x.date, open_ := x.open_, high := x.high, low := x.low, close := x.close,
        adjusted_close := if p.hasAdjCol then x.adjClose else x.close,
        volume := x.volume, source := "yfinance", ingested_at := now, symbol := symbol })

/-- From processing/normalizer.py `normalize_alpha_vantage_daily`: an
empty (or absent) time series raises ValueError; otherwise each entry is
mapped, with the per-entry adjusted-close fallback to close, and the
rows are sorted ascending by date. -/
def normalize_alpha_vantage_daily (p : AvPayload) (symbol : String) (now : Nat) :
    Except String (List Row) :=
  if p.rows.isEmpty then
    Except.error "No Time Series (Daily) found"
  else
    Except.ok (sortK (·.date) (p.rows.map fun x =>
      { date := x.date, open_ := x.open_, high := x.high, low := x.low, close := x.close,
        adjusted_close := x.adjClose.getD x.close,
        volume := x.volume, source := "alpha_vantage", ingested_at := now, symbol := symbol }))

/-- From processing/normalizer.py `normalize_stooq_daily`: adjusted
close is always a copy of close, and the rows are sorted ascending by
date. -/
def normalize_stooq_daily (rows : List StooqRaw) (symbol : String) (now : Nat) :
    Except String (List Row) :=
  Except.ok (sortK (·.date) (rows.map fun x =>
    { date := x.date, open_ := x.open_, high := x.high, low := x.low, close := x.close,
      adjusted_close := x.close,
      volume := x.volume, source := "stooq", ingested_at := now, symbol := symbol }))

/-- A raw payload of one of the three supported sources; the dispatch
key of `normalize` is the constructor. -/
inductive RawPayload where
  | yfinance (p : YfPayload)
  | alpha_vantage (p : AvPayload)
  | stooq (rows : List StooqRaw)
deriving DecidableEq, Repr

/-- From processing/normalizer.py `normalize`: dispatch by source name
over the `NORMALIZERS` table. -/
def normalize (p : RawPayload) (symbol : String) (now : Nat) : Except String (List Row) :=
  match p with
  | RawPayload.yfinance q => normalize_yfinance_daily q symbol now
  | RawPayload.alpha_vantage q => normalize_alpha_vantage_daily q symbol now
  | RawPayload.stooq rows => normalize_stooq_daily rows symbol now

/-- Calendar year of a rata-die day number (embedding of the dataframe
library `.dt.year()` on the date column), by the standard
days-to-civil-date conversion on the proleptic Gregorian calendar. -/
def dateYear (r : Nat) : Nat :=
  let z := r + 305
  let era := z / 146097
  let doe := z % 146097
  let yoe := (doe - doe / 1460 + doe / 36524 - doe / 146096) / 365
  let y := yoe + era * 400
  let doy := doe - (365 * yoe + yoe / 4 - yoe / 100)
  let mp := (5 * doy + 2) / 153
  let m := if mp < 10 then mp + 3 else mp - 9
  if m ≤ 2 then y + 1 else y

/-- From processing/partitioner.py: `_PARQUET_COLUMNS`, the canonical
columns minus the partition columns (symbol, source, year) — what one
partition file actually stores. -/
structure StoredRow where
  date : Nat
  open_ : Rat
  high : Rat
  low : Rat
  close : Rat
  adjusted_close : Rat
  volume : Int
  ingested_at : Nat
deriving DecidableEq, Repr

/-- Projection of a row onto `_PARQUET_COLUMNS`
(`group_df.select(_PARQUET_COLUMNS)`). -/
def storedOfRow (r : Row) : StoredRow :=
  { date := r.date, open_ := r.open_, high := r.high, low := r.low, close := r.close,
    adjusted_close := r.adjusted_close, volume := r.volume, ingested_at := r.ingested_at }

/-- A partition key (symbol, source, year).  The written path
`dataset/symbol=S/source=SRC/year=Y/data.parquet` is this key rendered
under a fixed dataset name, so keys and paths are in bijection. -/
def PKey : Type := String × String × Nat
deriving instance DecidableEq for PKey

/-- Partition key of a row: `(symbol, source, year)` with the year
derived from the date (`pl.col("date").dt.year()`). -/
def rowKey (r : Row) : PKey := (r.symbol, r.source, dateYear r.date)

/-- The storage root as a map from partition paths to the logical
content of the file at that path (`none` where no file exists). -/
def FS : Type := PKey → Option (List StoredRow)

/-- Writing one partition file, replacing any file already at that
path (`write_parquet` to a fixed `data.parquet` name). -/
def fsWrite (fs : FS) (k : PKey) (v : List StoredRow) : FS :=
  fun k2 => if k2 = k then some v else fs k2

/-- The rows of `df` belonging to one partition group, projected onto
the stored columns. -/
def groupRows (df : List Row) (k : PKey) : List StoredRow :=
  (df.filter (fun r => decide (rowKey r = k))).map storedOfRow

/-- From processing/partitioner.py `write_partitioned`: derive the year,
group the rows by (symbol, source, year), and for each group write the
non-partition columns to that group's single file, replacing existing
content; return the written paths.  The dataframe `group_by` iterates
each distinct key once with the rows of that group; the embedding takes
the distinct keys in first-appearance order. -/
def write_partitioned (df : List Row) (fs : FS) : FS × List PKey :=
  let keys := (df.map rowKey).dedup
  keys.foldl (fun st k => (fsWrite st.1 k (groupRows df k), st.2 ++ [k])) (fs, [])

/-- From cli/crossvalidate.py `_NO_ADJ_CLOSE_SOURCES`: the module-level
set of sources that do not provide a real adjusted close. -/
def NO_ADJ_CLOSE_SOURCES : List String := ["stooq"]

/-- The columns fetched per source by the compare command's SQL
(`SELECT date, open, high, low, close, adjusted_close, volume`). -/
def SQL_COLUMNS : List String :=
  ["date", "open", "high", "low", "close", "adjusted_close", "volume"]

/-- Columns of `df_a.join(df_b, on="date", suffix=f"_{src_b}")`: the
left columns followed by the right columns other than the join key,
each suffixed with `_src_b`. -/
def joinedColumns (src_b : String) : List String :=
  SQL_COLUMNS ++ (SQL_COLUMNS.filter (fun c => decide (c ≠ "date"))).map (fun c => c ++ "_" ++ src_b)

/-- From cli/crossvalidate.py `_print_pairwise_comparison`: the fixed
list `compare_cols = ["open", "high", "low", "close"]`. -/
def compare_cols : List String := ["open", "high", "low", "close"]

/-- From cli/crossvalidate.py `_print_pairwise_comparison`:
`skip_adj = src_a in _NO_ADJ_CLOSE_SOURCES or src_b in _NO_ADJ_CLOSE_SOURCES`
(in the source this flag only selects a printed note). -/
def skip_adj (src_a src_b : String) : Bool :=
  decide (src_a ∈ NO_ADJ_CLOSE_SOURCES) || decide (src_b ∈ NO_ADJ_CLOSE_SOURCES)

/-- The keys of the `diff_cols` mapping of
`_print_pairwise_comparison`: the compared columns, i.e. those of
`compare_cols` for which both the column and its suffixed counterpart
exist in the joined frame. -/
def diff_cols_keys (src_b : String) : List String :=
  compare_cols.filter (fun c =>
    decide (c ∈ joinedColumns src_b) && decide ((c ++ "_" ++ src_b) ∈ joinedColumns src_b))

/-! ### Helper lemmas -/

/-- Membership is preserved by the key sort. -/
theorem mem_sortK {α : Type} (f : α → Nat) (l : List α) (a : α) :
    a ∈ sortK f l ↔ a ∈ l :=
  (List.perm_insertionSort _ l).mem_iff

/-- Length is preserved by the key sort. -/
theorem length_sortK {α : Type} (f : α → Nat) (l : List α) :
    (sortK f l).length = l.length :=
  (List.perm_insertionSort _ l).length_eq

/-- The key sort sorts. -/
theorem sorted_sortK {α : Type} (f : α → Nat) (l : List α) :
    List.Sorted (fun a b => f a ≤ f b) (sortK f l) := by
  haveI : IsTotal α (fun a b => f a ≤ f b) := ⟨fun a b => le_total (f a) (f b)⟩
  haveI : IsTrans α (fun a b => f a ≤ f b) := ⟨fun _ _ _ h1 h2 => le_trans h1 h2⟩
  exact List.sorted_insertionSort _ l

/-- The boolean ascending test agrees with chained comparisons. -/
theorem ascK_iff_chain {α : Type} (f : α → Nat) :
    ∀ l : List α, ascK f l = true ↔ List.Chain' (fun a b => f a ≤ f b) l
  | [] => by simp [ascK]
  | [a] => by simp [ascK]
  | a :: b :: t => by
    rw [ascK, List.chain'_cons, Bool.and_eq_true, decide_eq_true_eq,
      ascK_iff_chain f (b :: t)]

/-- The key sort passes the boolean ascending test. -/
theorem ascK_sortK {α : Type} (f : α → Nat) (l : List α) :
    ascK f (sortK f l) = true := by
  rw [ascK_iff_chain]
  exact (sorted_sortK f l).chain'

/-- Membership in the inclusive weekday calendar. -/
theorem mem_trading_days_between {d s e : Nat} :
    d ∈ trading_days_between s e ↔ s ≤ d ∧ d ≤ e ∧ weekday d < 5 := by
  simp only [trading_days_between, List.mem_filter, List.mem_range'_1, weekday,
    decide_eq_true_eq]
  omega

/-- A filter is inhabited exactly when some element satisfies it. -/
theorem filter_pos_iff {α : Type} (p : α → Bool) (l : List α) :
    0 < (l.filter p).length ↔ ∃ x ∈ l, p x = true := by
  rw [List.length_pos, Ne, List.filter_eq_nil_iff]
  push_neg
  simp

/-- Specification of the series minimum. -/
theorem nat_min?_spec {l : List Nat} {a : Nat} (h : l.min? = some a) :
    a ∈ l ∧ ∀ b ∈ l, a ≤ b := by
  rw [List.min?_eq_some_iff] at h
  · exact h
  · exact fun a => le_refl a
  · exact fun a b => min_choice a b
  · exact fun a b c => le_min_iff

/-- Specification of the series maximum. -/
theorem nat_max?_spec {l : List Nat} {a : Nat} (h : l.max? = some a) :
    a ∈ l ∧ ∀ b ∈ l, b ≤ a := by
  rw [List.max?_eq_some_iff] at h
  · exact h
  · exact fun a => le_refl a
  · exact fun a b => max_choice a b
  · exact fun a b c => max_le_iff

/-- An infix of the right part of an append is an infix of the whole. -/
theorem isInfix_append_left {sub m : List Char} (l : List Char) (h : sub <:+: m) :
    sub <:+: l ++ m := by
  obtain ⟨s, t, rfl⟩ := h
  exact ⟨l ++ s, t, by simp⟩

/-- An infix of the left part of an append is an infix of the whole. -/
theorem isInfix_append_right {sub m : List Char} (t : List Char) (h : sub <:+: m) :
    sub <:+: m ++ t := by
  obtain ⟨s, u, rfl⟩ := h
  exact ⟨s, u ++ t, by simp⟩

/-- A member of a joined message list is a substring of the join. -/
theorem strMentions_joinSemicolon {x sub : String} {l : List String}
    (hx : x ∈ l) (hsub : strMentions x sub) :
    strMentions (joinSemicolon l) sub := by
  induction l with
  | nil => cases hx
  | cons a t ih =>
    cases t with
    | nil =>
      rw [List.mem_singleton] at hx
      subst hx
      exact hsub
    | cons b t2 =>
      show strMentions (a ++ "; " ++ joinSemicolon (b :: t2)) sub
      rcases List.mem_cons.mp hx with h | h
      · subst h
        unfold strMentions
        rw [String.data_append, String.data_append]
        exact isInfix_append_right _ (isInfix_append_right _ hsub)
      · have hj := ih h
        unfold strMentions at hj ⊢
        rw [String.data_append]
        exact isInfix_append_left _ hj

/-- The run decomposition of a nonempty list starts with a run headed by
the first element. -/
theorem gapRuns_cons (d : Nat) (rest : List Nat) :
    ∃ e rs, gapRuns (d :: rest) = (d :: e) :: rs := by
  induction rest generalizing d with
  | nil => exact ⟨[], [], rfl⟩
  | cons d2 r2 ih =>
    obtain ⟨e2, rs2, h2⟩ := ih d2
    by_cases h : d2 - d ≤ 3
    · exact ⟨d2 :: e2, rs2, by rw [gapRuns, h2]; simp [h]⟩
    · exact ⟨[], (d2 :: e2) :: rs2, by rw [gapRuns, h2]; simp [h]⟩

/-- Loop invariant of the gap loop of check_trading_day_gaps: started
with a running maximum `mg` dominating the current-run count `c`, it
returns the maximum of `mg`, the current run extended over the first
run of the remaining dates, and the lengths of the later runs. -/
theorem gapLoop_eq (rest : List Nat) :
    ∀ mg c prev : Nat, 1 ≤ c → c ≤ mg →
    ∀ e rs, gapRuns (prev :: rest) = (prev :: e) :: rs →
    gapLoop mg c prev rest = max mg (max (c + e.length) (listMaxLen rs)) := by
  induction rest with
  | nil =>
    intro mg c prev h1 hc e rs h
    rw [gapRuns] at h
    injection h with h3 h4
    injection h3 with h5 h6
    subst h4
    subst h6
    simp only [gapLoop, listMaxLen, List.length_nil, List.foldr_nil]
    omega
  | cons d r2 ih =>
    intro mg c prev h1 hc e rs h
    obtain ⟨e2, rs2, h2⟩ := gapRuns_cons d r2
    rw [gapRuns, h2] at h
    by_cases hd : d - prev ≤ 3
    · simp only [if_pos hd] at h
      injection h with h3 h4
      injection h3 with h5 h6
      subst h4
      subst h6
      rw [gapLoop, if_pos hd, ih (max mg (c + 1)) (c + 1) d (by omega) (by omega) e2 rs2 h2]
      simp only [List.length_cons]
      omega
    · simp only [if_neg hd] at h
      injection h with h3 h4
      injection h3 with h5 h6
      subst h4
      subst h6
      rw [gapLoop, if_neg hd, ih mg 1 d (by omega) (by omega) e2 rs2 h2]
      simp only [listMaxLen, List.foldr_cons, List.length_cons, List.length_nil,
        Nat.add_zero]
      rw [← Nat.max_assoc mg c, Nat.max_eq_left hc, Nat.add_comm 1 e2.length]

/-- The rolling maximum computed by check_trading_day_gaps over a
nonempty missing-date list is the length of the longest merged run. -/
theorem maxGapRun_eq_longest {missing : List Nat} (h : missing ≠ []) :
    maxGapRun missing = listMaxLen (gapRuns missing) := by
  cases missing with
  | nil => exact absurd rfl h
  | cons d rest =>
    obtain ⟨e, rs, hruns⟩ := gapRuns_cons d rest
    rw [maxGapRun, gapLoop_eq rest 1 1 d (le_refl 1) (le_refl 1) e rs hruns, hruns]
    simp only [listMaxLen, List.foldr_cons, List.length_cons]
    omega

/-- Monadic bind on an ok value, for unfolding the runner. -/
theorem bindOk {ε α β : Type} (a : α) (f : α → Except ε β) :
    (Except.ok a >>= f : Except ε β) = f a := rfl

/-- The negative-rows filter is inhabited exactly when a row has a
negative price. -/
theorem negRows_pos_iff (df : List Row) :
    0 < (negRows df).length ↔
      ∃ r ∈ df, r.open_ < 0 ∨ r.high < 0 ∨ r.low < 0 ∨ r.close < 0 := by
  rw [negRows, filter_pos_iff]
  simp [or_assoc]

/-- The high-low filter is inhabited exactly when a row has high < low. -/
theorem highLowRows_pos_iff (df : List Row) :
    0 < (highLowRows df).length ↔ ∃ r ∈ df, r.high < r.low := by
  rw [highLowRows, filter_pos_iff]
  simp

/-- The zero-close filter is inhabited exactly when a row has close = 0. -/
theorem zeroCloseRows_pos_iff (df : List Row) :
    0 < (zeroCloseRows df).length ↔ ∃ r ∈ df, r.close = 0 := by
  rw [zeroCloseRows, filter_pos_iff]
  simp

/-- The negative-volume filter is inhabited exactly when a row has
negative volume. -/
theorem negVolumeRows_pos_iff (df : List Row) :
    0 < (negVolumeRows df).length ↔ ∃ r ∈ df, r.volume < 0 := by
  rw [negVolumeRows, filter_pos_iff]
  simp

/-- The negative-prices issue description mentions "negative". -/
theorem mentions_negative (n : Nat) :
    strMentions (toString n ++ " rows with negative prices") "negative" := by
  unfold strMentions
  rw [String.data_append]
  exact isInfix_append_left _ (by decide)

/-- The inverted-bar issue description mentions "high < low". -/
theorem mentions_high_low (n : Nat) :
    strMentions (toString n ++ " rows where high < low") "high < low" := by
  unfold strMentions
  rw [String.data_append]
  exact isInfix_append_left _ (by decide)

/-- The price_sanity status is FAIL exactly when one of the four
filters is inhabited. -/
theorem price_status_iff (df : List Row) (s : String) :
    (check_price_sanity df s).status = CheckStatus.FAIL ↔
      (0 < (negRows df).length ∨ 0 < (highLowRows df).length ∨
        0 < (zeroCloseRows df).length ∨ 0 < (negVolumeRows df).length) := by
  by_cases h1 : 0 < (negRows df).length <;>
  by_cases h2 : 0 < (highLowRows df).length <;>
  by_cases h3 : 0 < (zeroCloseRows df).length <;>
  by_cases h4 : 0 < (negVolumeRows df).length <;>
  simp [check_price_sanity, h1, h2, h3, h4]

/-- The price_sanity status is always FAIL or PASS. -/
theorem price_status_pass_or_fail (df : List Row) (s : String) :
    (check_price_sanity df s).status = CheckStatus.FAIL ∨
      (check_price_sanity df s).status = CheckStatus.PASS := by
  by_cases h1 : 0 < (negRows df).length <;>
  by_cases h2 : 0 < (highLowRows df).length <;>
  by_cases h3 : 0 < (zeroCloseRows df).length <;>
  by_cases h4 : 0 < (negVolumeRows df).length <;>
  simp [check_price_sanity, h1, h2, h3, h4]

/-- When some row has a negative price, the price_sanity message
mentions "negative". -/
theorem price_mentions_neg (df : List Row) (s : String)
    (h : 0 < (negRows df).length) :
    strMentions (check_price_sanity df s).message "negative" := by
  by_cases h2 : 0 < (highLowRows df).length <;>
  by_cases h3 : 0 < (zeroCloseRows df).length <;>
  by_cases h4 : 0 < (negVolumeRows df).length <;>
  · simp [check_price_sanity, h, h2, h3, h4]
    exact strMentions_joinSemicolon (by simp) (mentions_negative (negRows df).length)

/-- When some row has high < low, the price_sanity message mentions
"high < low". -/
theorem price_mentions_hl (df : List Row) (s : String)
    (h : 0 < (highLowRows df).length) :
    strMentions (check_price_sanity df s).message "high < low" := by
  by_cases h1 : 0 < (negRows df).length <;>
  by_cases h3 : 0 < (zeroCloseRows df).length <;>
  by_cases h4 : 0 < (negVolumeRows df).length <;>
  · simp [check_price_sanity, h1, h, h3, h4]
    exact strMentions_joinSemicolon (by simp) (mentions_high_low (highLowRows df).length)

/-- On failure the price_sanity message is the join of the triggered
issue descriptions. -/
theorem price_message_eq (df : List Row) (s : String) :
    (check_price_sanity df s).status = CheckStatus.FAIL →
      (check_price_sanity df s).message = joinSemicolon (priceIssues df) := by
  by_cases h1 : 0 < (negRows df).length <;>
  by_cases h2 : 0 < (highLowRows df).length <;>
  by_cases h3 : 0 < (zeroCloseRows df).length <;>
  by_cases h4 : 0 < (negVolumeRows df).length <;>
  simp [check_price_sanity, priceIssues, h1, h2, h3, h4]

/-! ### Claim theorems -/

/-- Claim C1: for every input row set, the price_sanity check returns
status FAIL if and only if some row has a negative open, high, low, or
close, or some row has high < low, or some row has close = 0, or some
row has negative volume; otherwise it returns PASS; when it fails, its
message is the concatenation of the descriptions of all triggered issue
kinds, and in particular it mentions "negative" for a negative price
and "high < low" for an inverted bar. -/
theorem claim_C1_price_sanity (df : List Row) (s : String) :
    ((check_price_sanity df s).status = CheckStatus.FAIL ↔
      ((∃ r ∈ df, r.open_ < 0 ∨ r.high < 0 ∨ r.low < 0 ∨ r.close < 0) ∨
        (∃ r ∈ df, r.high < r.low) ∨
        (∃ r ∈ df, r.close = 0) ∨
        (∃ r ∈ df, r.volume < 0))) ∧
    ((check_price_sanity df s).status ≠ CheckStatus.FAIL →
      (check_price_sanity df s).status = CheckStatus.PASS) ∧
    ((∃ r ∈ df, r.open_ < 0 ∨ r.high < 0 ∨ r.low < 0 ∨ r.close < 0) →
      strMentions (check_price_sanity df s).message "negative") ∧
    ((∃ r ∈ df, r.high < r.low) →
      strMentions (check_price_sanity df s).message "high < low") ∧
    ((check_price_sanity df s).status = CheckStatus.FAIL →
      (check_price_sanity df s).message = joinSemicolon (priceIssues df)) := by
  refine ⟨?_, ?_, ?_, ?_, price_message_eq df s⟩
  · rw [price_status_iff, negRows_pos_iff, highLowRows_pos_iff, zeroCloseRows_pos_iff,
      negVolumeRows_pos_iff]
  · intro h
    rcases price_status_pass_or_fail df s with h2 | h2
    · exact absurd h2 h
    · exact h2
  · intro hx
    exact price_mentions_neg df s ((negRows_pos_iff df).mpr hx)
  · intro hx
    exact price_mentions_hl df s ((highLowRows_pos_iff df).mpr hx)

/-- A one-row set with a negative open and an inverted bar, the inputs
of the spec examples for price_sanity. -/
def dfC1 : List Row :=
  [{ date := 8, open_ := -10, high := 5, low := 8, close := 3, adjusted_close := 3,
     volume := 100, source := "test", ingested_at := 0, symbol := "BAD" }]

/-- Witness for C1: on a concrete row set with a negative open and
high < low, the check fails and its message mentions both issues. -/
theorem claim_C1_witness :
    (check_price_sanity dfC1 "BAD").status = CheckStatus.FAIL ∧
    strMentions (check_price_sanity dfC1 "BAD").message "negative" ∧
    strMentions (check_price_sanity dfC1 "BAD").message "high < low" := by
  obtain ⟨h1, _, h3, h4, _⟩ := claim_C1_price_sanity dfC1 "BAD"
  exact ⟨h1.mpr (Or.inl (by decide)), h3 (by decide), h4 (by decide)⟩

/-- Claim C3: a CheckReport's overall_status is FAIL when at least one
result has status FAIL, otherwise WARN when at least one result has
status WARN, otherwise PASS; in particular a report containing one FAIL
and one WARN is FAIL, and a report of only PASS results is PASS. -/
theorem claim_C3_overall_status (rep : CheckReport) :
    (rep.overall_status = CheckStatus.FAIL ↔
      ∃ r ∈ rep.results, r.status = CheckStatus.FAIL) ∧
    (rep.overall_status = CheckStatus.WARN ↔
      ((∀ r ∈ rep.results, r.status ≠ CheckStatus.FAIL) ∧
        ∃ r ∈ rep.results, r.status = CheckStatus.WARN)) ∧
    (rep.overall_status = CheckStatus.PASS ↔
      ∀ r ∈ rep.results, r.status = CheckStatus.PASS) ∧
    CheckReport.overall_status
      { symbol := "S", timestamp := 0,
        results := [{ check_name := "a", status := CheckStatus.FAIL, message := "" },
                    { check_name := "b", status := CheckStatus.WARN, message := "" }] }
      = CheckStatus.FAIL ∧
    CheckReport.overall_status
      { symbol := "S", timestamp := 0,
        results := [{ check_name := "a", status := CheckStatus.PASS, message := "" },
                    { check_name := "b", status := CheckStatus.PASS, message := "" }] }
      = CheckStatus.PASS := by
  have ef : (rep.results.any fun r => decide (r.status = CheckStatus.FAIL)) = true ↔
      ∃ r ∈ rep.results, r.status = CheckStatus.FAIL := by
    simp [List.any_eq_true]
  have ew : (rep.results.any fun r => decide (r.status = CheckStatus.WARN)) = true ↔
      ∃ r ∈ rep.results, r.status = CheckStatus.WARN := by
    simp [List.any_eq_true]
  by_cases hf : ∃ r ∈ rep.results, r.status = CheckStatus.FAIL
  · have hb : (rep.results.any fun r => decide (r.status = CheckStatus.FAIL)) = true :=
      ef.mpr hf
    have hov : rep.overall_status = CheckStatus.FAIL := by
      simp [CheckReport.overall_status, hb]
    obtain ⟨r0, hr0, hr0f⟩ := hf
    refine ⟨iff_of_true hov ⟨r0, hr0, hr0f⟩, ?_, ?_, by decide, by decide⟩
    · apply iff_of_false
      · rw [hov]
        simp
      · rintro ⟨hall, _⟩
        exact hall r0 hr0 hr0f
    · apply iff_of_false
      · rw [hov]
        simp
      · intro hall
        have h2 := hall r0 hr0
        rw [hr0f] at h2
        exact absurd h2 (by decide)
  · have hb : (rep.results.any fun r => decide (r.status = CheckStatus.FAIL)) = false := by
      rcases Bool.eq_false_or_eq_true (rep.results.any fun r => decide (r.status = CheckStatus.FAIL))
        with h | h
      · exact absurd (ef.mp h) hf
      · exact h
    have hnf : ∀ r ∈ rep.results, r.status ≠ CheckStatus.FAIL :=
      fun r hr hcon => hf ⟨r, hr, hcon⟩
    by_cases hw2 : ∃ r ∈ rep.results, r.status = CheckStatus.WARN
    · have hbw : (rep.results.any fun r => decide (r.status = CheckStatus.WARN)) = true :=
        ew.mpr hw2
      have hov : rep.overall_status = CheckStatus.WARN := by
        simp [CheckReport.overall_status, hb, hbw]
      obtain ⟨r0, hr0, hr0w⟩ := hw2
      refine ⟨?_, iff_of_true hov ⟨hnf, r0, hr0, hr0w⟩, ?_, by decide, by decide⟩
      · apply iff_of_false
        · rw [hov]
          simp
        · rintro ⟨r1, hr1, h1⟩
          exact hnf r1 hr1 h1
      · apply iff_of_false
        · rw [hov]
          simp
        · intro hall
          have h2 := hall r0 hr0
          rw [hr0w] at h2
          exact absurd h2 (by decide)
    · have hbw : (rep.results.any fun r => decide (r.status = CheckStatus.WARN)) = false := by
        rcases Bool.eq_false_or_eq_true (rep.results.any fun r => decide (r.status = CheckStatus.WARN))
          with h | h
        · exact absurd (ew.mp h) hw2
        · exact h
      have hnw : ∀ r ∈ rep.results, r.status ≠ CheckStatus.WARN :=
        fun r hr hcon => hw2 ⟨r, hr, hcon⟩
      have hov : rep.overall_status = CheckStatus.PASS := by
        simp [CheckReport.overall_status, hb, hbw]
      refine ⟨?_, ?_, iff_of_true hov ?_, by decide, by decide⟩
      · apply iff_of_false
        · rw [hov]
          simp
        · rintro ⟨r1, hr1, h1⟩
          exact hnf r1 hr1 h1
      · apply iff_of_false
        · rw [hov]
          simp
        · rintro ⟨_, r1, hr1, h1⟩
          exact hnw r1 hr1 h1
      · intro r hr
        rcases h : r.status with _ | _ | _
        · rfl
        · exact absurd h (hnw r hr)
        · exact absurd h (hnf r hr)

/-- Claim C10: for the empty input row set, the trading_day_gaps check
returns status FAIL with a no-data message, the same empty-input
convention stale_data uses. -/
theorem claim_C10_gaps_empty_input (s : String) :
    check_trading_day_gaps [] s = Except.ok
      { check_name := "trading_day_gaps", status := CheckStatus.FAIL,
        message := "No data for " ++ s, details := none } := rfl

/-- Claim C9: every validation check is total: for every input row set,
including the empty one, trading_day_gaps and stale_data return ok (the
embedded error branches standing for host exceptions are unreachable),
price_sanity and ohlc_consistency encode every detected problem as a
FAIL or WARN status, and the runner always returns a complete four-entry
report. -/
theorem claim_C9_checks_never_raise (today now : Nat) (df : List Row) (s : String) :
    (∃ r, check_trading_day_gaps df s = Except.ok r) ∧
    (∃ r, check_stale_data today df s = Except.ok r) ∧
    ((check_price_sanity df s).status = CheckStatus.PASS ∨
      (check_price_sanity df s).status = CheckStatus.FAIL) ∧
    ((check_ohlc_consistency df s).status = CheckStatus.PASS ∨
      (check_ohlc_consistency df s).status = CheckStatus.WARN) ∧
    (∃ rep, run_all_checks today now df s = Except.ok rep ∧ rep.results.length = 4) := by
  have h1 : ∃ r, check_trading_day_gaps df s = Except.ok r := by
    by_cases hdf : df = []
    · subst hdf
      exact ⟨_, rfl⟩
    · have hie : df.isEmpty = false := by simp [hdf]
      cases hd : datesOf df with
      | nil =>
        exfalso
        apply hdf
        have hl := length_sortK (α := Nat) id (df.map (·.date))
        rw [datesOf] at hd
        rw [hd] at hl
        simp at hl
        exact List.length_eq_zero.mp hl.symm
      | cons a t =>
        simp only [check_trading_day_gaps, hie, Bool.false_eq_true, if_false, hd,
          List.min?, List.max?]
        split
        · exact ⟨_, rfl⟩
        · exact ⟨_, rfl⟩
  have h3 : ∃ r, check_stale_data today df s = Except.ok r := by
    by_cases hdf : df = []
    · subst hdf
      exact ⟨_, rfl⟩
    · have hie : df.isEmpty = false := by simp [hdf]
      cases hm : (df.map (·.date)).max? with
      | none =>
        rw [List.max?_eq_none_iff] at hm
        simp [hdf] at hm
      | some m =>
        simp only [check_stale_data, hie, Bool.false_eq_true, if_false, hm]
        exact ⟨_, rfl⟩
  refine ⟨h1, h3, ?_, ?_, ?_⟩
  · rcases price_status_pass_or_fail df s with h | h
    · exact Or.inr h
    · exact Or.inl h
  · by_cases hf : 0 < (flatRows df).length <;>
    by_cases hz : 0 < (zeroVolMoveRows df).length <;>
    simp [check_ohlc_consistency, hf, hz]
  · obtain ⟨r1, hr1⟩ := h1
    obtain ⟨r3, hr3⟩ := h3
    refine ⟨{ symbol := s, timestamp := now,
              results := [r1, check_price_sanity df s, r3, check_ohlc_consistency df s] },
            ?_, rfl⟩
    simp only [run_all_checks, hr1, bindOk, hr3]

/-- Claim C2: for every non-empty input row set, the trading_day_gaps
check computes the weekday calendar between the minimum and maximum
date present, takes missing = expected minus actual, and returns PASS
when missing is empty; otherwise it merges consecutive missing dates at
most 3 calendar days apart into runs, returns FAIL when the longest run
exceeds 3 and WARN otherwise, and its details carry at most the first
20 missing dates. -/
theorem claim_C2_trading_day_gaps (df : List Row) (s : String) (hne : df ≠ []) :
    ∃ res mn mx, check_trading_day_gaps df s = Except.ok res ∧
      (datesOf df).min? = some mn ∧
      (datesOf df).max? = some mx ∧
      mn ∈ df.map (·.date) ∧ (∀ d ∈ df.map (·.date), mn ≤ d) ∧
      mx ∈ df.map (·.date) ∧ (∀ d ∈ df.map (·.date), d ≤ mx) ∧
      (∀ d, d ∈ missingOf df ↔
        (mn ≤ d ∧ d ≤ mx ∧ weekday d < 5 ∧ d ∉ df.map (·.date))) ∧
      (missingOf df = [] → res.status = CheckStatus.PASS) ∧
      (missingOf df ≠ [] →
        (res.status = CheckStatus.FAIL ↔ 3 < listMaxLen (gapRuns (missingOf df))) ∧
        (res.status = CheckStatus.WARN ↔ listMaxLen (gapRuns (missingOf df)) ≤ 3) ∧
        res.details = some (CheckDetails.missingDates ((missingOf df).take 20)) ∧
        ((missingOf df).take 20).length ≤ 20) := by
  have hie : df.isEmpty = false := by simp [hne]
  have hdne : datesOf df ≠ [] := by
    intro h0
    apply hne
    have hl := length_sortK (α := Nat) id (df.map (·.date))
    rw [datesOf] at h0
    rw [h0] at hl
    simp at hl
    exact List.length_eq_zero.mp hl.symm
  obtain ⟨mn, hmn⟩ : ∃ mn, (datesOf df).min? = some mn := by
    cases h : (datesOf df).min? with
    | none =>
      rw [List.min?_eq_none_iff] at h
      exact absurd h hdne
    | some v => exact ⟨v, rfl⟩
  obtain ⟨mx, hmx⟩ : ∃ mx, (datesOf df).max? = some mx := by
    cases h : (datesOf df).max? with
    | none =>
      rw [List.max?_eq_none_iff] at h
      exact absurd h hdne
    | some v => exact ⟨v, rfl⟩
  have hmem : ∀ x : Nat, x ∈ datesOf df ↔ x ∈ df.map (·.date) := by
    intro x
    rw [datesOf]
    exact mem_sortK id (df.map (·.date)) x
  obtain ⟨hmn_mem, hmn_le⟩ := nat_min?_spec hmn
  obtain ⟨hmx_mem, hmx_le⟩ := nat_max?_spec hmx
  have hmiss : missingOf df =
      (trading_days_between mn mx).filter (fun d => decide (d ∉ (datesOf df).dedup)) := by
    simp only [missingOf, hmn, hmx]
  have hiff : ∀ d, d ∈ missingOf df ↔
      (mn ≤ d ∧ d ≤ mx ∧ weekday d < 5 ∧ d ∉ df.map (·.date)) := by
    intro d
    rw [hmiss]
    simp only [List.mem_filter, mem_trading_days_between, decide_eq_true_eq,
      List.mem_dedup, hmem, and_assoc]
  simp only [check_trading_day_gaps, hie, Bool.false_eq_true, if_false, hmn, hmx]
  rw [← hmiss]
  by_cases hm : missingOf df = []
  · have hemp : (missingOf df).isEmpty = true := by
      rw [hm]
      rfl
    rw [hemp]
    simp only [if_true]
    refine ⟨_, mn, mx, rfl, rfl, rfl, (hmem mn).mp hmn_mem, ?_, (hmem mx).mp hmx_mem, ?_,
      hiff, fun _ => rfl, fun hcon => absurd hm hcon⟩
    · exact fun d hdm => hmn_le d ((hmem d).mpr hdm)
    · exact fun d hdm => hmx_le d ((hmem d).mpr hdm)
  · have hne2 : (missingOf df).isEmpty = false := by simp [hm]
    rw [hne2]
    simp only [Bool.false_eq_true, if_false]
    refine ⟨_, mn, mx, rfl, rfl, rfl, (hmem mn).mp hmn_mem, ?_, (hmem mx).mp hmx_mem, ?_,
      hiff, fun hcon => absurd hcon hm, fun _ => ⟨?_, ?_, rfl, ?_⟩⟩
    · exact fun d hdm => hmn_le d ((hmem d).mpr hdm)
    · exact fun d hdm => hmx_le d ((hmem d).mpr hdm)
    · rw [maxGapRun_eq_longest hm]
      by_cases hgap : 3 < listMaxLen (gapRuns (missingOf df)) <;> simp [hgap]
    · rw [maxGapRun_eq_longest hm]
      by_cases hgap : 3 < listMaxLen (gapRuns (missingOf df))
      · have h2 : ¬ listMaxLen (gapRuns (missingOf df)) ≤ 3 := by omega
        simp [hgap, h2]
      · have h2 : listMaxLen (gapRuns (missingOf df)) ≤ 3 := by omega
        simp [hgap, h2]
    · rw [List.length_take]
      omega
/-- Witness for C3: a concrete one-WARN report has overall status
WARN. -/
theorem claim_C3_witness :
    CheckReport.overall_status
      { symbol := "W", timestamp := 0,
        results := [{ check_name := "a", status := CheckStatus.WARN, message := "" }] }
      = CheckStatus.WARN := by
  obtain ⟨-, h2, -⟩ := claim_C3_overall_status
    { symbol := "W", timestamp := 0,
      results := [{ check_name := "a", status := CheckStatus.WARN, message := "" }] }
  exact h2.mpr ⟨by decide, by decide⟩

/-- A sane test row at a given date, used by concrete witnesses. -/
def mkTestRow (d : Nat) : Row :=
  { date := d, open_ := 10, high := 12, low := 9, close := 11, adjusted_close := 11,
    volume := 1000, source := "test", ingested_at := 0, symbol := "AAPL" }

/-- A two-row set with dates on a Monday (day 8) and the Friday of the
same week (day 12): the three weekdays in between are missing. -/
def dfC2 : List Row := [mkTestRow 8, mkTestRow 12]

/-- Witness for C2: on the concrete two-row set with three missing
weekdays merged into one run of 3, the check warns. -/
theorem claim_C2_witness :
    ∃ res, check_trading_day_gaps dfC2 "AAPL" = Except.ok res ∧
      res.status = CheckStatus.WARN := by
  obtain ⟨res, mn, mx, hok, -, -, -, -, -, -, -, -, hfw⟩ :=
    claim_C2_trading_day_gaps dfC2 "AAPL" (by decide)
  obtain ⟨-, hwarn, -, -⟩ := hfw (by decide)
  exact ⟨res, hok, hwarn.mpr (by decide)⟩

/-- The result of the unrolled weekend walk-back is the most recent
weekday on or before the reference day (stated for reference days from
day 2 on, where the backward walk cannot leave the calendar). -/
theorem last_trading_day_spec (t : Nat) (h2 : 2 ≤ t) :
    weekday (last_trading_day t) < 5 ∧ last_trading_day t ≤ t ∧
    ∀ d, last_trading_day t < d → d ≤ t → ¬ weekday d < 5 := by
  simp only [last_trading_day, weekday, beq_iff_eq]
  split_ifs with ha hb
  · refine ⟨by omega, by omega, ?_⟩
    intro d hd1 hd2
    omega
  · refine ⟨by omega, by omega, ?_⟩
    intro d hd1 hd2
    omega
  · refine ⟨by omega, by omega, ?_⟩
    intro d hd1 hd2
    omega

/-- Claim C4: the stale_data check uses as reference day the most recent
weekday on or before "now", computes days_behind as the count of
weekdays between the maximum date present and the reference (inclusive)
minus 1, and returns PASS when days_behind is at most 1, WARN when at
most 5, and FAIL otherwise; for an empty input it returns FAIL with a
no-data message. -/
theorem claim_C4_stale_data (today : Nat) (df : List Row) (s : String) (htoday : 2 ≤ today) :
    (df = [] → check_stale_data today df s = Except.ok
      { check_name := "stale_data", status := CheckStatus.FAIL,
        message := "No data for " ++ s, details := none }) ∧
    (df ≠ [] → ∃ res mx,
      check_stale_data today df s = Except.ok res ∧
      (df.map (·.date)).max? = some mx ∧
      mx ∈ df.map (·.date) ∧ (∀ d ∈ df.map (·.date), d ≤ mx) ∧
      weekday (last_trading_day today) < 5 ∧
      last_trading_day today ≤ today ∧
      (∀ d, last_trading_day today < d → d ≤ today → ¬ weekday d < 5) ∧
      res.details = some (CheckDetails.staleInfo mx
        (((trading_days_between mx (last_trading_day today)).length : Int) - 1)) ∧
      (res.status = CheckStatus.PASS ↔
        ((trading_days_between mx (last_trading_day today)).length : Int) - 1 ≤ 1) ∧
      (res.status = CheckStatus.WARN ↔
        (1 < ((trading_days_between mx (last_trading_day today)).length : Int) - 1 ∧
          ((trading_days_between mx (last_trading_day today)).length : Int) - 1 ≤ 5)) ∧
      (res.status = CheckStatus.FAIL ↔
        5 < ((trading_days_between mx (last_trading_day today)).length : Int) - 1)) := by
  constructor
  · intro h
    subst h
    rfl
  · intro hdf
    have hie : df.isEmpty = false := by simp [hdf]
    obtain ⟨mx, hm⟩ : ∃ mx, (df.map (·.date)).max? = some mx := by
      cases h : (df.map (·.date)).max? with
      | none =>
        rw [List.max?_eq_none_iff] at h
        simp [hdf] at h
      | some v => exact ⟨v, rfl⟩
    obtain ⟨hmem, hle⟩ := nat_max?_spec hm
    obtain ⟨hw1, hw2, hw3⟩ := last_trading_day_spec today htoday
    simp only [check_stale_data, hie, Bool.false_eq_true, if_false, hm]
    by_cases h1 : ((trading_days_between mx (last_trading_day today)).length : Int) - 1 ≤ 1
    · have hn5 : ¬ (1 < ((trading_days_between mx (last_trading_day today)).length : Int) - 1) := by
        omega
      have hn6 : ¬ (5 < ((trading_days_between mx (last_trading_day today)).length : Int) - 1) := by
        omega
      exact ⟨_, mx, rfl, rfl, hmem, hle, hw1, hw2, hw3, rfl,
        by simp [h1], by simp [h1, hn5], by simp [h1, hn6]⟩
    · by_cases h5 : ((trading_days_between mx (last_trading_day today)).length : Int) - 1 ≤ 5
      · have hp : 1 < ((trading_days_between mx (last_trading_day today)).length : Int) - 1 := by
          omega
        have hn6 : ¬ (5 < ((trading_days_between mx (last_trading_day today)).length : Int) - 1) := by
          omega
        exact ⟨_, mx, rfl, rfl, hmem, hle, hw1, hw2, hw3, rfl,
          by simp [h1]; split <;> simp, by simp [h1, h5, hp], by simp [h1, h5, hn6]⟩
      · have hp : 5 < ((trading_days_between mx (last_trading_day today)).length : Int) - 1 := by
          omega
        exact ⟨_, mx, rfl, rfl, hmem, hle, hw1, hw2, hw3, rfl,
          by simp [h1]; split <;> simp, by simp [h1, h5, hp], by simp [h1, h5, hp]⟩

/-- A one-row set whose only date is day 12, a Friday. -/
def dfC4 : List Row := [mkTestRow 12]

/-- Witness for C4: with "now" on that same Friday the data is current
and the check passes; on the empty set it fails with the no-data
result. -/
theorem claim_C4_witness :
    (∃ res, check_stale_data 12 dfC4 "AAPL" = Except.ok res ∧
      res.status = CheckStatus.PASS) ∧
    check_stale_data 12 ([] : List Row) "AAPL" = Except.ok
      { check_name := "stale_data", status := CheckStatus.FAIL,
        message := "No data for " ++ "AAPL", details := none } := by
  obtain ⟨hempty, hfull⟩ := claim_C4_stale_data 12 dfC4 "AAPL" (by decide)
  obtain ⟨res, mx, hok, hmx, -, -, -, -, -, -, hpass, -, -⟩ := hfull (by decide)
  have hmx12 : mx = 12 := by
    have h0 : (dfC4.map (·.date)).max? = some 12 := rfl
    rw [h0] at hmx
    exact (Option.some.inj hmx).symm
  subst hmx12
  refine ⟨⟨res, hok, hpass.mpr (by decide)⟩, ?_⟩
  exact (claim_C4_stale_data 12 ([] : List Row) "AAPL" (by decide)).1 rfl

/-- Counterexample to C5: for the pair yfinance / alpha_vantage neither
source is flagged in the no-adjusted-close set, yet adjusted_close is
not among the compared columns — the comparison loop runs over the
fixed list `compare_cols` and never adds adjusted_close, and the flag
itself is a hardcoded module-level set of source names rather than a
per-source capability attribute. -/
theorem claim_C5_counterexample :
    skip_adj "yfinance" "alpha_vantage" = false ∧
    "adjusted_close" ∉ diff_cols_keys "alpha_vantage" ∧
    "adjusted_close" ∉ compare_cols := by decide

/-- Claim C5 (amended): for every source pair, the compared columns are
exactly open, high, low and close; adjusted_close is never compared,
whatever the flags; and the skip flag (which in the source only selects
a printed note) holds exactly when either source name is in the
hardcoded set. -/
theorem claim_C5_compared_columns (src_a src_b : String) :
    diff_cols_keys src_b = ["open", "high", "low", "close"] ∧
    "adjusted_close" ∉ diff_cols_keys src_b ∧
    (skip_adj src_a src_b = true ↔
      (src_a ∈ NO_ADJ_CLOSE_SOURCES ∨ src_b ∈ NO_ADJ_CLOSE_SOURCES)) := by
  have hfil : SQL_COLUMNS.filter (fun x => decide (x ≠ "date")) =
      ["open", "high", "low", "close", "adjusted_close", "volume"] := by decide
  have hall : ∀ c ∈ compare_cols,
      (decide (c ∈ joinedColumns src_b) &&
        decide ((c ++ "_" ++ src_b) ∈ joinedColumns src_b)) = true := by
    intro c hc
    rw [Bool.and_eq_true, decide_eq_true_eq, decide_eq_true_eq]
    have hsql : c ∈ SQL_COLUMNS := by
      fin_cases hc <;> decide
    have hsfx : c ∈ SQL_COLUMNS.filter (fun x => decide (x ≠ "date")) := by
      rw [hfil]
      fin_cases hc <;> decide
    exact ⟨List.mem_append_left _ hsql,
      List.mem_append_right _ (List.mem_map.mpr ⟨c, hsfx, rfl⟩)⟩
  have heq : diff_cols_keys src_b = compare_cols := List.filter_eq_self.mpr hall
  refine ⟨heq, ?_, ?_⟩
  · rw [heq]
    decide
  · simp [skip_adj]

/-- Witness for C5: at the concrete pair yfinance / stooq, the compared
columns are exactly open, high, low, close and the skip flag is set. -/
theorem claim_C5_witness :
    diff_cols_keys "stooq" = ["open", "high", "low", "close"] ∧
    skip_adj "yfinance" "stooq" = true := by
  obtain ⟨h1, -, h3⟩ := claim_C5_compared_columns "yfinance" "stooq"
  exact ⟨h1, h3.mpr (Or.inr (by decide))⟩

/-- Counterexample to C6: the normalizer output carries the `symbol`
partitioning column in addition to the canonical schema, so its column
set does not equal the canonical schema exactly. -/
theorem claim_C6_counterexample :
    "symbol" ∈ NORMALIZE_OUTPUT_COLUMNS ∧ "symbol" ∉ DAILY_OHLCV_COLUMNS := by decide

/-- Claim C6 (amended): the column set of every normalizer output is
the canonical schema plus the `symbol` partitioning column
(order-insensitive), and every returned row satisfies
adjusted_close = close on the paths where the source has no true
adjustment: always for stooq, for yfinance when no adjusted-close
column is present, and for alpha_vantage entries without an
adjusted-close field. -/
theorem claim_C6_schema_and_adjusted_close :
    (∀ c, c ∈ NORMALIZE_OUTPUT_COLUMNS ↔ (c ∈ DAILY_OHLCV_COLUMNS ∨ c = "symbol")) ∧
    (∀ (rows : List StooqRaw) (s : String) (now : Nat) (out : List Row),
      normalize (RawPayload.stooq rows) s now = Except.ok out →
      ∀ r ∈ out, r.adjusted_close = r.close) ∧
    (∀ (p : YfPayload) (s : String) (now : Nat) (out : List Row),
      p.hasAdjCol = false →
      normalize (RawPayload.yfinance p) s now = Except.ok out →
      ∀ r ∈ out, r.adjusted_close = r.close) ∧
    (∀ (p : AvPayload) (s : String) (now : Nat) (out : List Row),
      (∀ x ∈ p.rows, x.adjClose = none) →
      normalize (RawPayload.alpha_vantage p) s now = Except.ok out →
      ∀ r ∈ out, r.adjusted_close = r.close) := by
  refine ⟨?_, ?_, ?_, ?_⟩
  · intro c
    simp [NORMALIZE_OUTPUT_COLUMNS]
  · intro rows s now out h r hr
    rw [normalize, normalize_stooq_daily, Except.ok.injEq] at h
    subst h
    obtain ⟨x, hx, rfl⟩ :=
      List.mem_map.mp ((mem_sortK (·.date) _ r).mp hr)
    rfl
  · intro p s now out hflag h r hr
    cases hrows : p.rows with
    | nil =>
      rw [normalize, normalize_yfinance_daily, hrows] at h
      cases h
    | cons a t =>
      rw [normalize, normalize_yfinance_daily, hrows] at h
      simp only [Except.ok.injEq] at h
      subst h
      rw [← hrows] at hr
      obtain ⟨x, hx, rfl⟩ := List.mem_map.mp hr
      simp [hflag]
  · intro p s now out hadj h r hr
    cases hrows : p.rows.isEmpty with
    | true =>
      rw [normalize, normalize_alpha_vantage_daily, hrows] at h
      cases h
    | false =>
      rw [normalize, normalize_alpha_vantage_daily, hrows] at h
      simp only [Bool.false_eq_true, if_false, Except.ok.injEq] at h
      subst h
      obtain ⟨x, hx, rfl⟩ :=
        List.mem_map.mp ((mem_sortK (·.date) _ r).mp hr)
      simp [hadj x hx]

/-- Witness for C6: a concrete stooq payload normalizes successfully
and every output row has adjusted_close equal to close. -/
theorem claim_C6_witness :
    ∃ out, normalize (RawPayload.stooq [⟨8, 1, 2, 1, 2, 100⟩]) "A" 0 = Except.ok out ∧
      ∀ r ∈ out, r.adjusted_close = r.close := by
  obtain ⟨-, hstooq, -, -⟩ := claim_C6_schema_and_adjusted_close
  exact ⟨_, rfl, hstooq [⟨8, 1, 2, 1, 2, 100⟩] "A" 0 _ rfl⟩

/-- A yfinance payload whose dates are in descending order. -/
def yfDesc : YfPayload :=
  { hasAdjCol := false,
    rows := [⟨10, 1, 2, 1, 2, 2, 100⟩, ⟨8, 1, 2, 1, 2, 2, 100⟩] }

/-- Counterexample to C7: a yfinance payload whose dates are not
ascending normalizes to rows that are still not ascending — the
yfinance normalizer performs no sort. -/
theorem claim_C7_counterexample :
    ascK id (yfDesc.rows.map (·.date)) = false ∧
    ∃ out, normalize (RawPayload.yfinance yfDesc) "A" 0 = Except.ok out ∧
      ascK (·.date) out = false := by
  refine ⟨rfl, ⟨_, rfl, ?_⟩⟩
  rfl

/-- Claim C7 (amended): the alpha_vantage and stooq normalizers return
rows sorted ascending by date; the yfinance normalizer returns rows in
payload order, so its output is ascending only when the payload already
is. -/
theorem claim_C7_sorted (p : RawPayload) (s : String) (now : Nat) (out : List Row)
    (hok : normalize p s now = Except.ok out) :
    (∀ q, p = RawPayload.alpha_vantage q → ascK (·.date) out = true) ∧
    (∀ rows, p = RawPayload.stooq rows → ascK (·.date) out = true) ∧
    (∀ q, p = RawPayload.yfinance q → out.map (·.date) = q.rows.map (·.date)) := by
  cases p with
  | yfinance q =>
    refine ⟨fun q2 h => by simp at h, fun rows h => by simp at h, ?_⟩
    intro q2 heq
    injection heq with h2
    subst h2
    cases hrows : q.rows with
    | nil =>
      rw [normalize, normalize_yfinance_daily, hrows] at hok
      cases hok
    | cons a t =>
      rw [normalize, normalize_yfinance_daily, hrows] at hok
      simp only [Except.ok.injEq] at hok
      subst hok
      rw [← hrows]
      rw [List.map_map]
      rfl
  | alpha_vantage q =>
    refine ⟨?_, fun rows h => by simp at h, fun q2 h => by simp at h⟩
    intro q2 heq
    injection heq with h2
    cases hrows : q.rows.isEmpty with
    | true =>
      rw [normalize, normalize_alpha_vantage_daily, hrows] at hok
      cases hok
    | false =>
      rw [normalize, normalize_alpha_vantage_daily, hrows] at hok
      simp only [Bool.false_eq_true, if_false, Except.ok.injEq] at hok
      subst hok
      exact ascK_sortK _ _
  | stooq rows =>
    refine ⟨fun q2 h => by simp at h, ?_, fun q2 h => by simp at h⟩
    intro rows2 heq
    rw [normalize, normalize_stooq_daily, Except.ok.injEq] at hok
    subst hok
    exact ascK_sortK _ _

/-- A stooq payload whose dates are in descending order. -/
def stooqDesc : List StooqRaw := [⟨12, 1, 2, 1, 2, 100⟩, ⟨8, 1, 2, 1, 2, 100⟩]

/-- Witness for C7: a concrete unsorted stooq payload normalizes to
rows in ascending date order. -/
theorem claim_C7_witness :
    ∃ out, normalize (RawPayload.stooq stooqDesc) "A" 0 = Except.ok out ∧
      ascK (·.date) out = true := by
  exact ⟨_, rfl, (claim_C7_sorted (RawPayload.stooq stooqDesc) "A" 0 _ rfl).2.1 stooqDesc rfl⟩

/-- The path list accumulated by the write fold. -/
theorem write_foldl_snd (keys : List PKey) (df : List Row) (fs : FS) (acc : List PKey) :
    (keys.foldl (fun st k => (fsWrite st.1 k (groupRows df k), st.2 ++ [k])) (fs, acc)).2 =
      acc ++ keys := by
  induction keys generalizing fs acc with
  | nil => simp
  | cons k ks ih =>
    rw [List.foldl_cons, ih]
    simp

/-- The storage state produced by the write fold: every folded key maps
to its group content, everything else is untouched. -/
theorem write_foldl_fst (keys : List PKey) (df : List Row) (fs : FS) (acc : List PKey)
    (k2 : PKey) :
    (keys.foldl (fun st k => (fsWrite st.1 k (groupRows df k), st.2 ++ [k])) (fs, acc)).1 k2 =
      if k2 ∈ keys then some (groupRows df k2) else fs k2 := by
  induction keys generalizing fs acc with
  | nil => simp
  | cons k ks ih =>
    rw [List.foldl_cons, ih]
    by_cases hks : k2 ∈ ks
    · simp [hks]
    · by_cases hk : k2 = k
      · subst hk
        simp [hks, fsWrite]
      · simp [hks, hk, fsWrite]

/-- Claim C8: write_partitioned is idempotent with respect to file
content: writing the same rows twice into the same root leaves, for
each partition group, a single file whose logical content is the rows
of that group projected onto the non-partition columns — identical
after the first and after the second call, with no duplicated rows —
returns the same path list both times, and each call returns exactly
one path per group written, leaving unrelated paths untouched. -/
theorem claim_C8_write_partitioned_idempotent (df : List Row) (fs : FS) :
    (write_partitioned df (write_partitioned df fs).1).1 = (write_partitioned df fs).1 ∧
    (write_partitioned df (write_partitioned df fs).1).2 = (write_partitioned df fs).2 ∧
    (write_partitioned df fs).2 = (df.map rowKey).dedup ∧
    ((write_partitioned df fs).2).Nodup ∧
    (∀ k ∈ (df.map rowKey).dedup,
      (write_partitioned df fs).1 k = some (groupRows df k) ∧
      (write_partitioned df (write_partitioned df fs).1).1 k = some (groupRows df k)) ∧
    (∀ k, k ∉ (df.map rowKey).dedup → (write_partitioned df fs).1 k = fs k) := by
  have hsnd : ∀ g : FS, (write_partitioned df g).2 = (df.map rowKey).dedup := by
    intro g
    rw [write_partitioned, write_foldl_snd]
    simp
  have hfst : ∀ (g : FS) (k2 : PKey), (write_partitioned df g).1 k2 =
      if k2 ∈ (df.map rowKey).dedup then some (groupRows df k2) else g k2 := by
    intro g k2
    rw [write_partitioned, write_foldl_fst]
  refine ⟨?_, ?_, hsnd fs, (hsnd fs) ▸ List.nodup_dedup _, ?_, ?_⟩
  · funext k2
    rw [hfst, hfst]
    by_cases hk : k2 ∈ (df.map rowKey).dedup
    · simp [hk]
    · simp [hk]
  · rw [hsnd, hsnd]
  · intro k hk
    rw [hfst, hfst]
    simp [hk]
  · intro k hk
    rw [hfst]
    simp [hk]

end CXq
